import Mathlib

/-!
Verification development for the Smart Horses backend core.

This file gives a shallow embedding, in Lean 4, of the core of the
Smart Horses game engine (board/state model, move generator, heuristic
evaluator and minimax search with alpha-beta pruning), translated
directly from the Python sources:

  * `smart_backend/core/move_generator.py`
  * `smart_backend/core/board_manager.py`
  * `smart_backend/core/game_state.py`
  * `smart_backend/algorithms/heuristic.py`
  * `smart_backend/algorithms/minimax.py`

Modelling conventions:

  * A Python board dict `{(row, col): None | "destroyed" | int}` is an
    association list `List (Pos × Cell)` in insertion order, with
    dict-update semantics given by `setBoard` (update in place keeps the
    entry's position in the list; a fresh key is appended).
  * Python `random.shuffle(all_positions)` is modelled by passing the
    shuffled list as an explicit argument to the constructor.
  * Python floats in the heuristic are modelled by exact rationals `ℚ`;
    the claims settled below only involve computations whose float
    evaluation is exact (small integers) or are insensitive to the
    numeric type.
  * `float("-inf")` / `float("inf")` in the search are modelled by the
    extended rational type `XQ` below.
  * Python string keys `f"{row},{col}"` are built with `toString`; the
    parsing `map(int, key.split(","))` is transcribed over the character
    list (`splitOnComma`, `strToInt` below) with Python's semantics.
-/

/-- Board coordinates, an integer pair (row, col) exactly as in Python. -/
abbrev Pos : Type := Int × Int

/-- One board square content: Python `None`, the string value for a removed
square, or an integer point value. -/
inductive Cell : Type where
  | empty : Cell
  | destroyed : Cell
  | val : Int → Cell
deriving DecidableEq

/-- The board dict, as an association list in Python-dict insertion order. -/
abbrev Board : Type := List (Pos × Cell)

def strWhite : String := "white"

def strBlack : String := "black"

def strTie : String := "tie"

def strBeginner : String := "beginner"

def strAmateur : String := "amateur"

def strExpert : String := "expert"

def strComma : String := ","

def strDestroyedErr : String := "Cannot move to destroyed square"

/-- Python `board.get(p)`: first entry with key `p`, if any. -/
def boardGet (b : Board) (p : Pos) : Option Cell :=
  (b.find? (fun e => decide (e.1 = p))).map (fun e => e.2)

/-- Python `board[p] = c`: replace the first entry with key `p` in place,
or append a fresh entry when the key is absent. -/
def setBoard : Board → Pos → Cell → Board
  | [], p, c => [(p, c)]
  | e :: rest, p, c =>
      if e.1 = p then (p, c) :: rest else e :: setBoard rest p c

namespace MoveGenerator

/-- The fixed knight offset table `KNIGHT_MOVES` of `move_generator.py`;
its order is load-bearing for the order of generated moves. -/
def KNIGHT_MOVES : List Pos :=
  [(-2, -1), (-2, 1), (-1, -2), (-1, 2), (1, -2), (1, 2), (2, -1), (2, 1)]

/-- Bounds check `0 <= r < 8 and 0 <= c < 8` of `get_knight_moves`. -/
def inBounds (m : Pos) : Prop :=
  0 ≤ m.1 ∧ m.1 < 8 ∧ 0 ≤ m.2 ∧ m.2 < 8

instance (m : Pos) : Decidable (inBounds m) := by
  unfold inBounds; infer_instance

/-- Transcribes `get_knight_moves`: all knight-offset destinations from
`position` that lie on the 8×8 board, in offset-table order. -/
def get_knight_moves (position : Pos) : List Pos :=
  (KNIGHT_MOVES.map (fun d => (position.1 + d.1, position.2 + d.2))).filter
    (fun m => decide (inBounds m))

/-- Transcribes `get_valid_moves`: keep in-bounds knight destinations whose
cell is not destroyed and that differ from the opponent position (a `none`
opponent, Python `None`, rejects nothing). -/
def get_valid_moves (knight_position : Pos) (board : Board)
    (opponent_position : Option Pos) : List Pos :=
  (get_knight_moves knight_position).filter
    (fun m => decide (boardGet board m ≠ some Cell.destroyed ∧
                      opponent_position ≠ some m))

/-- Transcribes `count_valid_moves`. -/
def count_valid_moves (knight_position : Pos) (board : Board)
    (opponent_position : Option Pos) : Nat :=
  (get_valid_moves knight_position board opponent_position).length

end MoveGenerator

/-- Transcribes `manhattan_distance` of `board_manager.py`. -/
def manhattan_distance (pos1 pos2 : Pos) : Int :=
  |pos1.1 - pos2.1| + |pos1.2 - pos2.2|

/-- The four center squares of `board_manager.py`. -/
def center_positions : List Pos := [(3, 3), (3, 4), (4, 3), (4, 4)]

/-- Transcribes `is_center_position`. -/
def is_center_position (position : Pos) : Bool :=
  decide (position ∈ center_positions)

/-- Transcribes `get_valuable_squares`: all positive-valued entries of the
board dict, in dict order. -/
def get_valuable_squares (board : Board) : List (Pos × Int) :=
  board.filterMap (fun e =>
    match e.2 with
    | Cell.val v => if 0 < v then some (e.1, v) else none
    | _ => none)

/-- The record of fields of the Python `GameState` object. -/
structure GameState : Type where
  board : Board
  white_knight : Pos
  black_knight : Pos
  white_score : Int
  black_score : Int
  current_player : String
  difficulty : String
  max_depth : Nat
  game_over : Bool
  winner : Option String
deriving DecidableEq

/-- Transcribes `GameState._get_max_depth`: `depths.get(difficulty, 2)`. -/
def GameState._get_max_depth (difficulty : String) : Nat :=
  if difficulty = strBeginner then 2
  else if difficulty = strAmateur then 4
  else if difficulty = strExpert then 6
  else 2

/-- The 64 squares `(r, c)` for `r, c in range(8)` in row-major order, the
insertion order of the Python board dict. -/
def allSquares : List Pos :=
  (List.range 8).flatMap (fun r => (List.range 8).map (fun c => ((r : Int), (c : Int))))

/-- The ten special values placed by `_initialize_board`, in placement order. -/
def special_values : List Int := [-10, -5, -4, -3, -1, 1, 3, 4, 5, 10]

/-- Transcribes the board part of `GameState._initialize_board`: all 64
squares start empty; the ten special values are assigned to the shuffled
positions at indices 2..11 (indices 0 and 1 hold the knights).  Python
indexing `all_positions[i + 2]` is modelled by zipping `drop 2` of the
shuffled list with the value list (`zip` truncates exactly where Python
would raise on a too-short list). -/
def GameState._initialize_board (all_positions : List Pos) : Board :=
  let b0 : Board := allSquares.map (fun p => (p, Cell.empty))
  ((all_positions.drop 2).zip special_values).foldl
    (fun b pv => setBoard b pv.1 (Cell.val pv.2)) b0

/-- Transcribes `GameState.__init__` with the result of `random.shuffle`
passed explicitly.  The `headD` defaults are the pre-shuffle field values
`(0, 0)` and `(7, 7)` that `__init__` assigns before `_initialize_board`
overwrites them from the shuffled list. -/
def GameState.new (difficulty : String) (shuffled : List Pos) : GameState :=
  { board := GameState._initialize_board shuffled
  , white_knight := shuffled.headD (0, 0)
  , black_knight := (shuffled.drop 1).headD (7, 7)
  , white_score := 0
  , black_score := 0
  , current_player := strWhite
  , difficulty := difficulty
  , max_depth := GameState._get_max_depth difficulty
  , game_over := false
  , winner := none }

/-- Transcribes the method `GameState.get_valid_moves`. -/
def GameState.get_valid_moves (s : GameState) (knight : String) : List Pos :=
  let position := if knight = strWhite then s.white_knight else s.black_knight
  let opponent_position := if knight = strWhite then s.black_knight else s.white_knight
  MoveGenerator.get_valid_moves position s.board (some opponent_position)

/-- Transcribes `GameState._check_game_over`: the game ends, and the winner
is computed by score comparison, only when both sides have no valid move. -/
def GameState._check_game_over (s : GameState) : GameState :=
  let white_moves := s.get_valid_moves strWhite
  let black_moves := s.get_valid_moves strBlack
  if white_moves = [] ∧ black_moves = [] then
    { s with game_over := true
           , winner :=
               if s.white_score > s.black_score then some strWhite
               else if s.black_score > s.white_score then some strBlack
               else some strTie }
  else s

/-- Result dict of `GameState.make_move`: either the invalid-move dict
`{"valid": False, "error": ...}` or the valid dict with `points_gained`,
`new_position` and `square_destroyed`. -/
inductive MoveResult : Type where
  | invalid : String → MoveResult
  | valid : Int → Pos → Pos → MoveResult
deriving DecidableEq

/-- Transcribes `GameState.make_move`.  The only rejection is a destroyed
destination; otherwise the knight is relocated, a nonzero point value at the
destination is collected (collecting `0` for an empty or zero square is the
same as Python's skipped falsy branch), the vacated square is destroyed, the
turn flips and the terminal check runs. -/
def GameState.make_move (s : GameState) (knight : String) (new_position : Pos) :
    MoveResult × GameState :=
  let old_position := if knight = strWhite then s.white_knight else s.black_knight
  let square_value := (boardGet s.board new_position).getD Cell.empty
  if square_value = Cell.destroyed then
    (MoveResult.invalid strDestroyedErr, s)
  else
    let s1 := if knight = strWhite then { s with white_knight := new_position }
              else { s with black_knight := new_position }
    let points_gained : Int :=
      match square_value with
      | Cell.val v => v
      | _ => 0
    let s2 := if knight = strWhite
              then { s1 with white_score := s1.white_score + points_gained }
              else { s1 with black_score := s1.black_score + points_gained }
    let s3 := { s2 with board := setBoard s2.board old_position Cell.destroyed }
    let s4 := { s3 with current_player := if knight = strWhite then strBlack else strWhite }
    (MoveResult.valid points_gained new_position old_position, s4._check_game_over)

/-- Transcribes `GameState.check_and_penalize_no_moves`: a stuck side to
move pays 4 points, the turn flips, the terminal check re-runs. -/
def GameState.check_and_penalize_no_moves (s : GameState) : Bool × GameState :=
  let current_moves := s.get_valid_moves s.current_player
  if current_moves = [] then
    let s1 := if s.current_player = strWhite
              then { s with white_score := s.white_score - 4 }
              else { s with black_score := s.black_score - 4 }
    let s2 := { s1 with current_player :=
                  if s1.current_player = strWhite then strBlack else strWhite }
    (true, s2._check_game_over)
  else (false, s)

/-- Python `f"{row},{col}"` serialization of a board key. -/
def posKey (p : Pos) : String := toString p.1 ++ strComma ++ toString p.2

/-- Helper for `key.split(",")`: accumulate characters up to each comma. -/
def splitOnCommaAux : List Char → List Char → List String
  | [], acc => [String.mk acc.reverse]
  | c :: rest, acc =>
      if c = ',' then String.mk acc.reverse :: splitOnCommaAux rest []
      else splitOnCommaAux rest (c :: acc)

/-- Python `key.split(",")`, transcribed over the character list (the
library `String.splitOn` has the same semantics on these keys but does not
reduce in the kernel). -/
def splitOnComma (s : String) : List String := splitOnCommaAux s.data []

/-- Decimal digits to a number, as Python `int()` reads an unsigned body. -/
def digitsToNat (ds : List Char) : Nat :=
  ds.foldl (fun n c => n * 10 + (c.toNat - 48)) 0

/-- Python `int(s)` on an optionally `-`-signed decimal string, the only
shapes produced by the serializer. -/
def strToInt (s : String) : Int :=
  match s.data with
  | '-' :: ds => -(digitsToNat ds : Int)
  | ds => (digitsToNat ds : Int)

/-- Python `row, col = map(int, key.split(","))`.  Totalized: a key that is
not two comma-separated fields (where Python would raise) parses to the
default below; round-trip keys never hit the default. -/
def parseKey (key : String) : Pos :=
  match splitOnComma key with
  | [a, b] => (strToInt a, strToInt b)
  | _ => (0, 0)

/-- The dictionary produced by `GameState.to_dict`, field for field. -/
structure GameDict : Type where
  board : List (String × Cell)
  white_knight : List Int
  black_knight : List Int
  white_score : Int
  black_score : Int
  current_player : String
  difficulty : String
  max_depth : Nat
  game_over : Bool
  winner : Option String
deriving DecidableEq

/-- Transcribes `GameState.to_dict`. -/
def GameState.to_dict (s : GameState) : GameDict :=
  { board := s.board.map (fun e => (posKey e.1, e.2))
  , white_knight := [s.white_knight.1, s.white_knight.2]
  , black_knight := [s.black_knight.1, s.black_knight.2]
  , white_score := s.white_score
  , black_score := s.black_score
  , current_player := s.current_player
  , difficulty := s.difficulty
  , max_depth := s.max_depth
  , game_over := s.game_over
  , winner := s.winner }

/-- Python `tuple(data["white_knight"])` for a two-element list.  Totalized
with a default for other lengths (where Python's later tuple unpacking would
differ); `to_dict` always produces two elements. -/
def listToPos : List Int → Pos
  | [r, c] => (r, c)
  | _ => (0, 0)

/-- Transcribes `GameState.from_dict`: the board dict is rebuilt by
iterated dict assignment over the serialized entries. -/
def GameState.from_dict (d : GameDict) : GameState :=
  { board := d.board.foldl (fun b kv => setBoard b (parseKey kv.1) kv.2) []
  , white_knight := listToPos d.white_knight
  , black_knight := listToPos d.black_knight
  , white_score := d.white_score
  , black_score := d.black_score
  , current_player := d.current_player
  , difficulty := d.difficulty
  , max_depth := d.max_depth
  , game_over := d.game_over
  , winner := d.winner }

/-- Transcribes `GameState.copy`: serialize and deserialize. -/
def GameState.copy (s : GameState) : GameState :=
  GameState.from_dict s.to_dict

/-- Contribution of one valuable square to a knight's proximity tally in
`evaluate_game_state`: `value / distance`, or `value * 2` when the knight
stands on the square. -/
def proximity_contrib (knight : Pos) (pv : Pos × Int) : ℚ :=
  let dist := manhattan_distance knight pv.1
  if dist > 0 then (pv.2 : ℚ) / (dist : ℚ) else (pv.2 : ℚ) * 2

/-- Transcribes `evaluate_game_state` of `heuristic.py`, with Python floats
modelled by exact rationals.  The two proximity tallies, accumulated in a
single Python loop over the valuable squares, are written as two folds over
the same list (the accumulations are independent).  Note that the two
mobility counts are taken, as in the source, without an opponent argument. -/
def evaluate_game_state (s : GameState) : ℚ :=
  if s.game_over then
    if s.winner = some strWhite then 10000
    else if s.winner = some strBlack then -10000
    else 0
  else
    let score_diff := s.white_score - s.black_score
    let e1 : ℚ := (score_diff : ℚ) * 100
    let white_moves := MoveGenerator.count_valid_moves s.white_knight s.board none
    let black_moves := MoveGenerator.count_valid_moves s.black_knight s.board none
    let e2 := e1 + ((white_moves : ℚ) - (black_moves : ℚ)) * 10
    let valuable_squares := get_valuable_squares s.board
    let e3 :=
      if valuable_squares = [] then e2
      else
        let white_proximity :=
          valuable_squares.foldl (fun acc pv => acc + proximity_contrib s.white_knight pv) 0
        let black_proximity :=
          valuable_squares.foldl (fun acc pv => acc + proximity_contrib s.black_knight pv) 0
        e2 + (white_proximity - black_proximity) * 5
    let e4 := if is_center_position s.white_knight then e3 + 3 else e3
    let e5 := if is_center_position s.black_knight then e4 - 3 else e4
    let e6 := if white_moves = 0 then e5 - 400 else e5
    if black_moves = 0 then e6 + 400 else e6

/-- Extended rationals modelling the Python floats `-inf`, finite, `+inf`
used by the alpha-beta search. -/
inductive XQ : Type where
  | ninf : XQ
  | fin : ℚ → XQ
  | pinf : XQ
deriving DecidableEq

/-- Python `<=` on the three kinds of search values. -/
def XQ.leB : XQ → XQ → Bool
  | XQ.ninf, _ => true
  | XQ.fin _, XQ.ninf => false
  | XQ.fin a, XQ.fin b => decide (a ≤ b)
  | XQ.fin _, XQ.pinf => true
  | XQ.pinf, XQ.pinf => true
  | XQ.pinf, _ => false

/-- Python `<` (total on these values, no NaN). -/
def XQ.ltB (a b : XQ) : Bool := ! XQ.leB b a

/-- Python `max(a, b)` (returns `a` on ties, which is value-irrelevant). -/
def XQ.maxP (a b : XQ) : XQ := if XQ.leB b a then a else b

/-- Python `min(a, b)`. -/
def XQ.minP (a b : XQ) : XQ := if XQ.leB a b then a else b

/-- Result triple of `minimax_alpha_beta`:
(evaluation, best move or `None`, node counter). -/
abbrev MMResult : Type := XQ × Option Pos × Nat

/-- The maximizing `for move in valid_moves` loop of `minimax_alpha_beta`,
with the recursive call abstracted as `recur` (the child state, the current
alpha and the node counter vary along the loop; beta is fixed in a
maximizing node).  Transcribed from the source: joint update of the best
value and best move on a strictly greater child value, `alpha = max(alpha,
child value)`, and `break` once `beta <= alpha`. -/
def maxLoopG (recur : GameState → XQ → Nat → MMResult) (s : GameState)
    (player : String) (β : XQ) :
    List Pos → XQ → XQ → Option Pos → Nat → MMResult
  | [], _, max_eval, best_move, nodes => (max_eval, best_move, nodes)
  | move :: rest, α, max_eval, best_move, nodes =>
      let new_state := ((s.copy).make_move player move).2
      let r := recur new_state α nodes
      let max_eval' := if XQ.ltB max_eval r.1 then r.1 else max_eval
      let best_move' := if XQ.ltB max_eval r.1 then some move else best_move
      let α' := XQ.maxP α r.1
      if XQ.leB β α' then (max_eval', best_move', r.2.2)
      else maxLoopG recur s player β rest α' max_eval' best_move' r.2.2

/-- The minimizing loop of `minimax_alpha_beta`, symmetric to `maxLoopG`
(alpha fixed, beta updated, `break` once `beta <= alpha`). -/
def minLoopG (recur : GameState → XQ → Nat → MMResult) (s : GameState)
    (player : String) (α : XQ) :
    List Pos → XQ → XQ → Option Pos → Nat → MMResult
  | [], _, min_eval, best_move, nodes => (min_eval, best_move, nodes)
  | move :: rest, β, min_eval, best_move, nodes =>
      let new_state := ((s.copy).make_move player move).2
      let r := recur new_state β nodes
      let min_eval' := if XQ.ltB r.1 min_eval then r.1 else min_eval
      let best_move' := if XQ.ltB r.1 min_eval then some move else best_move
      let β' := XQ.minP β r.1
      if XQ.leB β' α then (min_eval', best_move', r.2.2)
      else minLoopG recur s player α rest β' min_eval' best_move' r.2.2

/-- Transcribes `minimax_alpha_beta` of `minimax.py`.  The counter is
incremented on entry; at depth 0, on a terminal state, or with no valid
moves for the side given by `is_maximizing`, the heuristic score is
returned with no move; otherwise the matching loop runs over the valid
moves with the seeds `-inf` / `+inf` and no best move. -/
def minimax_alpha_beta : Nat → GameState → XQ → XQ → Bool → Nat → MMResult
  | 0, s, _, _, _, nodes => (XQ.fin (evaluate_game_state s), none, nodes + 1)
  | depth + 1, s, α, β, is_maximizing, nodes =>
      if s.game_over then (XQ.fin (evaluate_game_state s), none, nodes + 1)
      else
        let player := if is_maximizing then strWhite else strBlack
        let valid_moves := s.get_valid_moves player
        if valid_moves = [] then (XQ.fin (evaluate_game_state s), none, nodes + 1)
        else if is_maximizing then
          maxLoopG (fun c a k => minimax_alpha_beta depth c a β false k)
            s player β valid_moves α XQ.ninf none (nodes + 1)
        else
          minLoopG (fun c b k => minimax_alpha_beta depth c α b true k)
            s player α valid_moves β XQ.pinf none (nodes + 1)

/-- Claim-side transcription (C1) of the maximizing loop, following the
spec's words: iterate the legal moves in order over cloned states; keep the
move with the strictly greater value seen so far (the first move wins ties,
modelled by an initially absent best value/move pair); set alpha to
`max(alpha, childValue)`; stop iterating the remaining sibling moves once
`beta <= alpha`.  The empty-`best` fallback on exit is unreachable for a
nonempty move list. -/
def claimMaxLoop (recur : GameState → XQ → Nat → MMResult) (s : GameState)
    (side : String) (β : XQ) :
    List Pos → XQ → Option (XQ × Pos) → Nat → MMResult
  | [], _, best, nodes =>
      (match best with
       | some vb => (vb.1, some vb.2, nodes)
       | none => (XQ.ninf, none, nodes))
  | move :: rest, α, best, nodes =>
      let child := ((s.copy).make_move side move).2
      let r := recur child α nodes
      let keep : Bool :=
        match best with
        | none => true
        | some vb => XQ.ltB vb.1 r.1
      let best' := if keep then some (r.1, move) else best
      let α' := XQ.maxP α r.1
      if XQ.leB β α' then
        (match best' with
         | some vb => (vb.1, some vb.2, r.2.2)
         | none => (XQ.ninf, none, r.2.2))
      else claimMaxLoop recur s side β rest α' best' r.2.2

/-- Claim-side transcription (C1) of the minimizing loop, symmetric to
`claimMaxLoop` with strictly smaller values and a beta update. -/
def claimMinLoop (recur : GameState → XQ → Nat → MMResult) (s : GameState)
    (side : String) (α : XQ) :
    List Pos → XQ → Option (XQ × Pos) → Nat → MMResult
  | [], _, best, nodes =>
      (match best with
       | some vb => (vb.1, some vb.2, nodes)
       | none => (XQ.pinf, none, nodes))
  | move :: rest, β, best, nodes =>
      let child := ((s.copy).make_move side move).2
      let r := recur child β nodes
      let keep : Bool :=
        match best with
        | none => true
        | some vb => XQ.ltB r.1 vb.1
      let best' := if keep then some (r.1, move) else best
      let β' := XQ.minP β r.1
      if XQ.leB β' α then
        (match best' with
         | some vb => (vb.1, some vb.2, r.2.2)
         | none => (XQ.pinf, none, r.2.2))
      else claimMinLoop recur s side α rest β' best' r.2.2

/-- Claim-side transcription (C1) of `minimax_alpha_beta`: the node counter
increments once per call, including leaf calls; if the remaining depth is 0,
or the terminal flag is set, or the side to move at the node has zero legal
moves, the heuristic score of the state is returned unchanged with no move;
otherwise the loop for the node kind iterates the legal moves in
move-generator order over cloned states. -/
def minimaxClaim : Nat → GameState → XQ → XQ → Bool → Nat → MMResult
  | 0, s, _, _, _, nodes => (XQ.fin (evaluate_game_state s), none, nodes + 1)
  | depth + 1, s, α, β, is_maximizing, nodes =>
      let side := if is_maximizing then strWhite else strBlack
      let moves := s.get_valid_moves side
      if s.game_over ∨ moves = [] then
        (XQ.fin (evaluate_game_state s), none, nodes + 1)
      else if is_maximizing then
        claimMaxLoop (fun c a k => minimaxClaim depth c a β false k)
          s side β moves α none (nodes + 1)
      else
        claimMinLoop (fun c b k => minimaxClaim depth c α b true k)
          s side α moves β none (nodes + 1)

/-- An all-empty 8×8 board dict in insertion order. -/
def emptyGrid : Board := allSquares.map (fun p => (p, Cell.empty))

/-- Concrete state: white at (0,0) whose only knight destinations are the
black knight's square (1,2) and the destroyed square (2,1); black mobile;
empty board otherwise; white to move. -/
def stateWhiteStuck : GameState :=
  { board := setBoard emptyGrid ((2 : Int), (1 : Int)) Cell.destroyed
  , white_knight := (0, 0)
  , black_knight := (1, 2)
  , white_score := 0
  , black_score := 0
  , current_player := strWhite
  , difficulty := strBeginner
  , max_depth := 2
  , game_over := false
  , winner := none }

/-- Concrete state: white at (0,0), black at (1,2) on an all-empty board;
(1,2) is a knight destination of (0,0) occupied by the opponent. -/
def stateOpponentAdjacent : GameState :=
  { board := emptyGrid
  , white_knight := (0, 0)
  , black_knight := (1, 2)
  , white_score := 0
  , black_score := 0
  , current_player := strWhite
  , difficulty := strBeginner
  , max_depth := 2
  , game_over := false
  , winner := none }

/-- Concrete state: both knights on (distinct) center squares. -/
def stateBothCenter : GameState :=
  { board := emptyGrid
  , white_knight := (3, 3)
  , black_knight := (4, 4)
  , white_score := 0
  , black_score := 0
  , current_player := strWhite
  , difficulty := strBeginner
  , max_depth := 2
  , game_over := false
  , winner := none }

/-- One externally driven operation on the authoritative state (the only
two mutators of `game_state.py`). -/
inductive GameOp : Type where
  | move : String → Pos → GameOp
  | penalize : GameOp
deriving DecidableEq

/-- Run one operation, keeping the resulting state. -/
def applyOp (s : GameState) (op : GameOp) : GameState :=
  match op with
  | GameOp.move knight dest => (s.make_move knight dest).2
  | GameOp.penalize => (s.check_and_penalize_no_moves).2

/-- All integer point values present on a board, in dict order. -/
def boardVals (b : Board) : List Int :=
  b.filterMap (fun e =>
    match e.2 with
    | Cell.val v => some v
    | _ => none)

/-- Score-differential term of the evaluator: `(white - black) * 100`. -/
def scoreTerm (s : GameState) : ℚ :=
  ((s.white_score - s.black_score : Int) : ℚ) * 100

/-- Mobility term as computed by the code: move counts taken without an
opponent argument (the opponent's square is not excluded). -/
def mobilityTerm (s : GameState) : ℚ :=
  ((MoveGenerator.count_valid_moves s.white_knight s.board none : ℚ)
    - (MoveGenerator.count_valid_moves s.black_knight s.board none : ℚ)) * 10

/-- Proximity term of the evaluator: weighted difference of the two
tallies over the valuable squares. -/
def proximityTerm (s : GameState) : ℚ :=
  ((get_valuable_squares s.board).foldl
      (fun acc pv => acc + proximity_contrib s.white_knight pv) 0
    - (get_valuable_squares s.board).foldl
        (fun acc pv => acc + proximity_contrib s.black_knight pv) 0) * 5

/-- Center-control term of the evaluator: `+3` for white on a center
square, `-3` for black on a center square. -/
def centerTerm (s : GameState) : ℚ :=
  (if is_center_position s.white_knight then 3 else 0)
    - (if is_center_position s.black_knight then 3 else 0)

/-- No-move term as computed by the code: the same opponent-free counts as
the mobility term. -/
def noMoveTerm (s : GameState) : ℚ :=
  (if MoveGenerator.count_valid_moves s.white_knight s.board none = 0 then -400 else 0)
    + (if MoveGenerator.count_valid_moves s.black_knight s.board none = 0 then 400 else 0)

/-- Mobility term as claim C3 words it: counts of the moves the move
generator returns for each side, i.e. excluding the opponent's square. -/
def mobilityTermClaim (s : GameState) : ℚ :=
  (((s.get_valid_moves strWhite).length : ℚ)
    - ((s.get_valid_moves strBlack).length : ℚ)) * 10

/-- No-move term as claim C3 words it: triggered by a side having zero
legal moves in the opponent-excluding sense. -/
def noMoveTermClaim (s : GameState) : ℚ :=
  (if s.get_valid_moves strWhite = [] then -400 else 0)
    + (if s.get_valid_moves strBlack = [] then 400 else 0)

theorem boardGet_nil (q : Pos) : boardGet [] q = none := rfl

theorem boardGet_cons (e : Pos × Cell) (l : Board) (q : Pos) :
    boardGet (e :: l) q = if e.1 = q then some e.2 else boardGet l q := by
  by_cases h : e.1 = q <;> simp [boardGet, List.find?, h]

/-- Lookup after a dict update. -/
theorem boardGet_setBoard (b : Board) (p : Pos) (c : Cell) (q : Pos) :
    boardGet (setBoard b p c) q = if q = p then some c else boardGet b q := by
  induction b with
  | nil =>
      rcases eq_or_ne q p with h | h
      · subst h
        simp [setBoard, boardGet_cons]
      · simp [setBoard, boardGet_cons, h, Ne.symm h]
  | cons e rest ih =>
      rcases eq_or_ne q p with h | h
      · subst h
        by_cases he : e.1 = q
        · simp [setBoard, he, boardGet_cons]
        · simp [setBoard, he, boardGet_cons, ih]
      · by_cases he : e.1 = p
        · have hq : e.1 ≠ q := by rw [he]; exact Ne.symm h
          simp [setBoard, he, boardGet_cons, h, Ne.symm h, hq]
        · simp [setBoard, he, boardGet_cons, ih, h]

/-- The terminal check touches no field besides `game_over` and `winner`. -/
theorem check_game_over_board (s : GameState) : (s._check_game_over).board = s.board := by
  simp only [GameState._check_game_over]
  split <;> rfl

theorem check_game_over_white_knight (s : GameState) :
    (s._check_game_over).white_knight = s.white_knight := by
  simp only [GameState._check_game_over]
  split <;> rfl

theorem check_game_over_black_knight (s : GameState) :
    (s._check_game_over).black_knight = s.black_knight := by
  simp only [GameState._check_game_over]
  split <;> rfl

theorem check_game_over_white_score (s : GameState) :
    (s._check_game_over).white_score = s.white_score := by
  simp only [GameState._check_game_over]
  split <;> rfl

theorem check_game_over_black_score (s : GameState) :
    (s._check_game_over).black_score = s.black_score := by
  simp only [GameState._check_game_over]
  split <;> rfl

theorem check_game_over_current_player (s : GameState) :
    (s._check_game_over).current_player = s.current_player := by
  simp only [GameState._check_game_over]
  split <;> rfl

/-- The state method `get_valid_moves` only reads board and knights. -/
theorem get_valid_moves_congr (s t : GameState) (hb : t.board = s.board)
    (hw : t.white_knight = s.white_knight) (hk : t.black_knight = s.black_knight)
    (k : String) : t.get_valid_moves k = s.get_valid_moves k := by
  unfold GameState.get_valid_moves
  rw [hb, hw, hk]

/-- Claim C5: for every knight position, board, and opponent position, the
move generator returns exactly the knight-offset destinations
{(±1,±2),(±2,±1)} that are in bounds, not destroyed, and not the opponent
square; the returned order is a subsequence of the fixed offset-table
order; and each corner square yields exactly 2 candidates before the
destroyed/opponent filtering. -/
theorem spec_c5_move_generator :
    (∀ (p : Pos) (b : Board) (opp : Option Pos) (m : Pos),
        m ∈ MoveGenerator.get_valid_moves p b opp ↔
          ((∃ d ∈ MoveGenerator.KNIGHT_MOVES, m = (p.1 + d.1, p.2 + d.2)) ∧
            MoveGenerator.inBounds m ∧
            boardGet b m ≠ some Cell.destroyed ∧ opp ≠ some m))
    ∧ (∀ (p : Pos) (b : Board) (opp : Option Pos),
        List.Sublist (MoveGenerator.get_valid_moves p b opp)
          (MoveGenerator.KNIGHT_MOVES.map (fun d => (p.1 + d.1, p.2 + d.2))))
    ∧ (MoveGenerator.get_knight_moves ((0 : Int), (0 : Int))).length = 2
    ∧ (MoveGenerator.get_knight_moves ((0 : Int), (7 : Int))).length = 2
    ∧ (MoveGenerator.get_knight_moves ((7 : Int), (0 : Int))).length = 2
    ∧ (MoveGenerator.get_knight_moves ((7 : Int), (7 : Int))).length = 2 := by
  refine ⟨?_, ?_, by decide, by decide, by decide, by decide⟩
  · intro p b opp m
    simp only [MoveGenerator.get_valid_moves, MoveGenerator.get_knight_moves,
      List.mem_filter, List.mem_map, decide_eq_true_eq]
    constructor
    · rintro ⟨⟨⟨d, hd, hdm⟩, hin⟩, hrest⟩
      exact ⟨⟨d, hd, hdm.symm⟩, hin, hrest⟩
    · rintro ⟨⟨d, hd, hdm⟩, hin, hrest⟩
      exact ⟨⟨⟨d, hd, hdm.symm⟩, hin⟩, hrest⟩
  · intro p b opp
    exact List.Sublist.trans (List.filter_sublist _) (List.filter_sublist _)

/-- Claim C10: constructing a state from any difficulty string succeeds,
and an unrecognized string silently gets search depth 2 (the dict `get`
default), with the difficulty stored verbatim and a fresh non-terminal
white-to-move state. -/
theorem spec_c10_default_depth (difficulty : String) (shuffled : List Pos)
    (h1 : difficulty ≠ strBeginner) (h2 : difficulty ≠ strAmateur)
    (h3 : difficulty ≠ strExpert) :
    (GameState.new difficulty shuffled).max_depth = 2
    ∧ (GameState.new difficulty shuffled).difficulty = difficulty
    ∧ (GameState.new difficulty shuffled).current_player = strWhite
    ∧ (GameState.new difficulty shuffled).game_over = false := by
  unfold GameState.new GameState._get_max_depth
  simp [h1, h2, h3]

/-- Witness for C10 at the concrete unrecognized difficulty string
`"tie"` and the identity (unshuffled) position list. -/
theorem spec_c10_default_depth_witness :
    strTie ≠ strBeginner ∧ strTie ≠ strAmateur ∧ strTie ≠ strExpert ∧
    (GameState.new strTie allSquares).max_depth = 2 := by
  refine ⟨by decide, by decide, by decide, ?_⟩
  exact (spec_c10_default_depth strTie allSquares (by decide) (by decide) (by decide)).1

/-- Counterexample to claim C4 as stated: `make_move` does not reject a
destination occupied by the opponent knight, nor a destination that is not
a knight offset from the mover.  From `stateOpponentAdjacent` (white at
(0,0), black at (1,2), no destroyed squares), moving white onto the black
knight's square (1,2) returns a valid outcome and mutates the state, and so
does moving white to (0,5), which is not a knight offset of (0,0). -/
theorem spec_c4_counterexample :
    stateOpponentAdjacent.black_knight = ((1 : Int), (2 : Int))
    ∧ (stateOpponentAdjacent.make_move strWhite ((1 : Int), (2 : Int))).1
        = MoveResult.valid 0 ((1 : Int), (2 : Int)) ((0 : Int), (0 : Int))
    ∧ (stateOpponentAdjacent.make_move strWhite ((1 : Int), (2 : Int))).2
        ≠ stateOpponentAdjacent
    ∧ (stateOpponentAdjacent.make_move strWhite ((0 : Int), (5 : Int))).1
        = MoveResult.valid 0 ((0 : Int), (5 : Int)) ((0 : Int), (0 : Int)) := by
  refine ⟨rfl, by decide, by decide, by decide⟩

/-- Claim C4, amended to what `make_move` actually checks: the move is
rejected — with the explicit invalid-move outcome and a completely
unchanged state — if and only if the destination's cell is destroyed.
Destinations occupied by the opponent or off the knight-offset pattern are
not rejected by `make_move`; they are filtered earlier by the callers that
consult the move generator. -/
theorem spec_c4_invalid_iff_destroyed (s : GameState) (knight : String) (d : Pos) :
    ((s.make_move knight d).1 = MoveResult.invalid strDestroyedErr ↔
        (boardGet s.board d).getD Cell.empty = Cell.destroyed)
    ∧ ((boardGet s.board d).getD Cell.empty = Cell.destroyed →
        (s.make_move knight d).2 = s) := by
  unfold GameState.make_move
  by_cases h : (boardGet s.board d).getD Cell.empty = Cell.destroyed
  · simp [h]
  · simp [h]

/-- Witness for the amended C4 at a destroyed destination: from
`stateWhiteStuck`, the destroyed square (2,1) is rejected and the state is
returned unchanged. -/
theorem spec_c4_invalid_iff_destroyed_witness :
    (boardGet stateWhiteStuck.board ((2 : Int), (1 : Int))).getD Cell.empty = Cell.destroyed
    ∧ (stateWhiteStuck.make_move strWhite ((2 : Int), (1 : Int))).2 = stateWhiteStuck := by
  refine ⟨by decide, ?_⟩
  exact (spec_c4_invalid_iff_destroyed stateWhiteStuck strWhite ((2 : Int), (1 : Int))).2
    (by decide)

/-- One accepted or rejected move never resurrects a destroyed square. -/
theorem make_move_preserves_destroyed (s : GameState) (knight : String) (d : Pos)
    (p : Pos) (h : boardGet s.board p = some Cell.destroyed) :
    boardGet ((s.make_move knight d).2).board p = some Cell.destroyed := by
  by_cases hdest : (boardGet s.board d).getD Cell.empty = Cell.destroyed
  · simpa [GameState.make_move, hdest] using h
  · by_cases hk : knight = strWhite
    · simp only [GameState.make_move, if_neg hdest, hk, if_true, check_game_over_board]
      rw [boardGet_setBoard]
      split
      · rfl
      · exact h
    · simp only [GameState.make_move, if_neg hdest, hk, if_false, check_game_over_board]
      rw [boardGet_setBoard]
      split
      · rfl
      · exact h

/-- The penalty operation never touches the board. -/
theorem penalize_board (s : GameState) :
    ((s.check_and_penalize_no_moves).2).board = s.board := by
  unfold GameState.check_and_penalize_no_moves
  by_cases h : s.get_valid_moves s.current_player = []
  · by_cases hc : s.current_player = strWhite
    · rw [hc] at h
      simp [h, hc, check_game_over_board]
    · simp [h, hc, check_game_over_board]
  · simp [h]

/-- Claim C7: destruction is monotone.  Once a board cell is destroyed it
stays destroyed after any sequence of `make_move` and
`check_and_penalize_no_moves` operations. -/
theorem spec_c7_destroyed_monotone (ops : List GameOp) (s : GameState) (p : Pos)
    (h : boardGet s.board p = some Cell.destroyed) :
    boardGet ((ops.foldl applyOp s).board) p = some Cell.destroyed := by
  induction ops generalizing s with
  | nil => exact h
  | cons op rest ih =>
      rw [List.foldl_cons]
      apply ih
      cases op with
      | move knight dest =>
          simp only [applyOp]
          exact make_move_preserves_destroyed s knight dest p h
      | penalize =>
          simp only [applyOp]
          rw [penalize_board]
          exact h

/-- Witness for C7: in `stateWhiteStuck` the square (2,1) is destroyed and
stays destroyed after a penalty pass for white followed by a black move. -/
theorem spec_c7_destroyed_monotone_witness :
    boardGet stateWhiteStuck.board ((2 : Int), (1 : Int)) = some Cell.destroyed
    ∧ boardGet (([GameOp.penalize,
        GameOp.move strBlack ((3 : Int), (1 : Int))].foldl applyOp
          stateWhiteStuck).board) ((2 : Int), (1 : Int)) = some Cell.destroyed := by
  refine ⟨by decide, ?_⟩
  exact spec_c7_destroyed_monotone
    [GameOp.penalize, GameOp.move strBlack ((3 : Int), (1 : Int))]
    stateWhiteStuck ((2 : Int), (1 : Int)) (by decide)

/-- The terminal check is the identity unless both sides are stuck. -/
theorem check_game_over_noop (s : GameState)
    (h : ¬(s.get_valid_moves strWhite = [] ∧ s.get_valid_moves strBlack = [])) :
    s._check_game_over = s := by
  unfold GameState._check_game_over
  simp [h]

/-- Unfolding of the penalty operation for a stuck white side to move. -/
theorem penalize_eq_white (s : GameState) (hc : s.current_player = strWhite)
    (hcur : s.get_valid_moves strWhite = []) :
    s.check_and_penalize_no_moves =
      (true, ({ s with white_score := s.white_score - 4, current_player := strBlack } : GameState)._check_game_over) := by
  simp [GameState.check_and_penalize_no_moves, hc, hcur]

/-- Unfolding of the penalty operation for a stuck black side to move. -/
theorem penalize_eq_black (s : GameState) (hc : s.current_player = strBlack)
    (hcur : s.get_valid_moves strBlack = []) :
    s.check_and_penalize_no_moves =
      (true, ({ s with black_score := s.black_score - 4, current_player := strWhite } : GameState)._check_game_over) := by
  have hne : strBlack = strWhite ↔ False := by decide
  simp [GameState.check_and_penalize_no_moves, hc, hcur, hne]

/-- Claim C2: the terminal flag is set only when both sides simultaneously
have zero legal moves, and then the winner comes from score comparison;
when only the side to move is stuck, the penalty operation subtracts 4 from
that side's score, flips the side to move, re-runs the terminal check, and
does not end the game (board, knights and the other score untouched). -/
theorem spec_c2_terminal_and_penalty (s : GameState) :
    ((s._check_game_over).game_over = true ↔
        (s.game_over = true ∨
          (s.get_valid_moves strWhite = [] ∧ s.get_valid_moves strBlack = [])))
    ∧ (s.get_valid_moves strWhite = [] → s.get_valid_moves strBlack = [] →
        (s._check_game_over).winner =
          some (if s.white_score > s.black_score then strWhite
                else if s.black_score > s.white_score then strBlack else strTie))
    ∧ ((s.current_player = strWhite ∨ s.current_player = strBlack) →
        s.game_over = false →
        s.get_valid_moves s.current_player = [] →
        s.get_valid_moves (if s.current_player = strWhite then strBlack else strWhite) ≠ [] →
        (s.check_and_penalize_no_moves).1 = true
        ∧ (s.check_and_penalize_no_moves).2.game_over = false
        ∧ (s.check_and_penalize_no_moves).2.current_player =
            (if s.current_player = strWhite then strBlack else strWhite)
        ∧ (if s.current_player = strWhite
           then (s.check_and_penalize_no_moves).2.white_score = s.white_score - 4
                ∧ (s.check_and_penalize_no_moves).2.black_score = s.black_score
           else (s.check_and_penalize_no_moves).2.black_score = s.black_score - 4
                ∧ (s.check_and_penalize_no_moves).2.white_score = s.white_score)
        ∧ (s.check_and_penalize_no_moves).2.board = s.board
        ∧ (s.check_and_penalize_no_moves).2.white_knight = s.white_knight
        ∧ (s.check_and_penalize_no_moves).2.black_knight = s.black_knight) := by
  refine ⟨?_, ?_, ?_⟩
  · unfold GameState._check_game_over
    by_cases hw : s.get_valid_moves strWhite = [] ∧ s.get_valid_moves strBlack = []
    · simp [hw]
    · simp [hw]
  · intro hW hB
    unfold GameState._check_game_over
    simp only [hW, hB, and_self, if_true]
    split_ifs <;> rfl
  · rintro (hc | hc) hgo hcur hother
    · rw [hc] at hcur
      rw [penalize_eq_white s hc hcur]
      set t : GameState := { s with white_score := s.white_score - 4, current_player := strBlack } with ht
      have hb : t.get_valid_moves strBlack = s.get_valid_moves strBlack :=
        get_valid_moves_congr s t rfl rfl rfl strBlack
      have hno : ¬(t.get_valid_moves strWhite = [] ∧ t.get_valid_moves strBlack = []) := by
        rintro ⟨-, h2⟩
        rw [hb] at h2
        apply hother
        rw [hc]
        simpa using h2
      rw [check_game_over_noop t hno]
      refine ⟨rfl, hgo, ?_, ?_, rfl, rfl, rfl⟩
      · rw [hc]
        simp
      · rw [hc]
        simp [ht]
    · rw [hc] at hcur
      rw [penalize_eq_black s hc hcur]
      set t : GameState := { s with black_score := s.black_score - 4, current_player := strWhite } with ht
      have hb : t.get_valid_moves strWhite = s.get_valid_moves strWhite :=
        get_valid_moves_congr s t rfl rfl rfl strWhite
      have hno : ¬(t.get_valid_moves strWhite = [] ∧ t.get_valid_moves strBlack = []) := by
        rintro ⟨h1, -⟩
        rw [hb] at h1
        apply hother
        rw [hc]
        have hne : strBlack = strWhite ↔ False := by decide
        simpa [hne] using h1
      rw [check_game_over_noop t hno]
      have hne : strBlack = strWhite ↔ False := by decide
      refine ⟨rfl, hgo, ?_, ?_, rfl, rfl, rfl⟩
      · rw [hc]
        simp [hne]
      · rw [hc]
        simp [ht, hne]

/-- Witness for C2 at `stateWhiteStuck`: the stuck white side is penalized
4 points, the turn passes to black, and the game does not end. -/
theorem spec_c2_terminal_and_penalty_witness :
    (stateWhiteStuck.check_and_penalize_no_moves).1 = true
    ∧ (stateWhiteStuck.check_and_penalize_no_moves).2.game_over = false
    ∧ (stateWhiteStuck.check_and_penalize_no_moves).2.white_score
        = stateWhiteStuck.white_score - 4 := by
  have h := (spec_c2_terminal_and_penalty stateWhiteStuck).2.2 (Or.inl rfl) rfl
    (by decide) (by decide)
  refine ⟨h.1, h.2.1, ?_⟩
  have h4 := h.2.2.2.1
  simp only [show stateWhiteStuck.current_player = strWhite from rfl, if_true,
    eq_self_iff_true] at h4
  exact h4.1

/-- Serialization and parsing of a board key round-trip on every square of
the 8×8 grid (the only keys the game ever stores). -/
theorem parseKey_posKey : ∀ p ∈ allSquares, parseKey (posKey p) = p := by decide

/-- A dict assignment with a fresh key appends. -/
theorem setBoard_append (b : Board) (p : Pos) (c : Cell)
    (h : p ∉ b.map Prod.fst) : setBoard b p c = b ++ [(p, c)] := by
  induction b with
  | nil => rfl
  | cons e rest ih =>
      simp only [List.map_cons, List.mem_cons, not_or] at h
      simp only [setBoard, if_neg (Ne.symm h.1 : ¬e.1 = p), List.cons_append]
      rw [ih h.2]

/-- Rebuilding a dict by iterated assignment of entries with fresh, distinct
keys appends them all in order. -/
theorem foldl_setBoard_eq_append : ∀ (l acc : Board),
    (l.map Prod.fst).Nodup →
    (∀ k ∈ l.map Prod.fst, k ∉ acc.map Prod.fst) →
    l.foldl (fun b kv => setBoard b kv.1 kv.2) acc = acc ++ l := by
  intro l
  induction l with
  | nil => intro acc _ _; simp
  | cons e rest ih =>
      intro acc hnd hfresh
      simp only [List.map_cons, List.nodup_cons] at hnd
      rw [List.foldl_cons]
      rw [setBoard_append acc e.1 e.2 (hfresh e.1 (by simp))]
      rw [ih (acc ++ [(e.1, e.2)]) hnd.2]
      · simp
      · intro k hkmem
        simp only [List.map_append, List.mem_append] at *
        push_neg
        refine ⟨hfresh k (by simp [hkmem]), ?_⟩
        simp only [List.map_cons, List.map_nil, List.mem_singleton]
        intro hkp
        exact hnd.1 (hkp ▸ hkmem)

/-- Claim C8: serializing and deserializing reproduces every field of the
state.  The two hypotheses record the Python dict invariants of the board:
its keys are the 8×8 grid squares laid down by `_initialize_board` (the
only keys the game ever creates) and, being dict keys, they are distinct. -/
theorem spec_c8_roundtrip (s : GameState)
    (hk : ∀ e ∈ s.board, e.1 ∈ allSquares)
    (hnd : (s.board.map Prod.fst).Nodup) :
    GameState.from_dict (GameState.to_dict s) = s := by
  have hboard : (s.board.map (fun e => (posKey e.1, e.2))).foldl
      (fun b kv => setBoard b (parseKey kv.1) kv.2) ([] : Board) = s.board := by
    rw [List.foldl_map]
    have hext : s.board.foldl (fun b e => setBoard b (parseKey (posKey e.1)) e.2) ([] : Board)
        = s.board.foldl (fun b e => setBoard b e.1 e.2) ([] : Board) := by
      apply List.foldl_ext
      intro b e he
      rw [parseKey_posKey e.1 (hk e he)]
    rw [hext]
    have := foldl_setBoard_eq_append s.board [] hnd (by simp)
    simpa using this
  obtain ⟨b, wk, bk, ws, bs, cp, df, md, go, wn⟩ := s
  simp only [GameState.from_dict, GameState.to_dict, GameState.mk.injEq]
  simp [hboard, listToPos]

/-- Witness for C8 at `stateWhiteStuck`, whose board keys are the 64 grid
squares in insertion order. -/
theorem spec_c8_roundtrip_witness :
    GameState.from_dict (GameState.to_dict stateWhiteStuck) = stateWhiteStuck := by
  exact spec_c8_roundtrip stateWhiteStuck (by decide) (by decide)

theorem boardVals_cons (e : Pos × Cell) (l : Board) :
    boardVals (e :: l) =
      (match e.2 with
       | Cell.val v => v :: boardVals l
       | _ => boardVals l) := by
  obtain ⟨q, c⟩ := e
  cases c <;> simp [boardVals, List.filterMap_cons]

/-- Writing a point value over an empty cell adds exactly that value to the
board's value multiset. -/
theorem boardVals_setBoard (b : Board) (p : Pos) (v : Int)
    (h : boardGet b p = some Cell.empty) :
    List.Perm (boardVals (setBoard b p (Cell.val v))) (v :: boardVals b) := by
  induction b with
  | nil => simp [boardGet_nil] at h
  | cons e rest ih =>
      rw [boardGet_cons] at h
      by_cases he : e.1 = p
      · rw [if_pos he] at h
        have he2 : e.2 = Cell.empty := Option.some.inj h
        simp only [setBoard, if_pos he, boardVals_cons, he2]
        exact List.Perm.refl _
      · rw [if_neg he] at h
        have ihp := ih h
        simp only [setBoard, if_neg he]
        rcases hc : e.2 with _ | _ | w
        · simpa [boardVals_cons, hc] using ihp
        · simpa [boardVals_cons, hc] using ihp
        · simp only [boardVals_cons, hc]
          exact (ihp.cons w).trans (List.Perm.swap v w (boardVals rest))

/-- Placing values on distinct, currently-empty squares accumulates exactly
those values on the board. -/
theorem boardVals_foldl_place : ∀ (pairs : List (Pos × Int)) (b : Board),
    (pairs.map Prod.fst).Nodup →
    (∀ q ∈ pairs.map Prod.fst, boardGet b q = some Cell.empty) →
    List.Perm (boardVals (pairs.foldl (fun b pv => setBoard b pv.1 (Cell.val pv.2)) b))
      (pairs.map Prod.snd ++ boardVals b) := by
  intro pairs
  induction pairs with
  | nil => intro b _ _; simp
  | cons pv rest ih =>
      intro b hnd hempty
      simp only [List.map_cons, List.nodup_cons] at hnd
      rw [List.foldl_cons]
      have hb1 : ∀ q ∈ rest.map Prod.fst,
          boardGet (setBoard b pv.1 (Cell.val pv.2)) q = some Cell.empty := by
        intro q hq
        rw [boardGet_setBoard]
        rw [if_neg (fun hqp : q = pv.1 => hnd.1 (hqp ▸ hq))]
        exact hempty q (by simp [hq])
      have hperm := ih (setBoard b pv.1 (Cell.val pv.2)) hnd.2 hb1
      have hset := boardVals_setBoard b pv.1 pv.2 (hempty pv.1 (by simp))
      simp only [List.map_cons, List.cons_append]
      exact hperm.trans ((List.Perm.append_left (rest.map Prod.snd) hset).trans
        List.perm_middle)

/-- A fold of placements never touches squares outside its key set. -/
theorem boardGet_foldl_place : ∀ (pairs : List (Pos × Int)) (b : Board) (q : Pos),
    q ∉ pairs.map Prod.fst →
    boardGet (pairs.foldl (fun b pv => setBoard b pv.1 (Cell.val pv.2)) b) q = boardGet b q := by
  intro pairs
  induction pairs with
  | nil => intro b q _; rfl
  | cons pv rest ih =>
      intro b q hq
      simp only [List.map_cons, List.mem_cons, not_or] at hq
      rw [List.foldl_cons, ih _ q hq.2, boardGet_setBoard, if_neg hq.1]

theorem map_fst_zip_eq_take {α β : Type} (l : List α) (m : List β) :
    (l.zip m).map Prod.fst = l.take m.length := by
  induction l generalizing m with
  | nil => simp
  | cons a l ih =>
      cases m with
      | nil => simp
      | cons b m => simp [ih]

theorem map_snd_zip_eq_take {α β : Type} (l : List α) (m : List β) :
    (l.zip m).map Prod.snd = m.take l.length := by
  induction l generalizing m with
  | nil => simp
  | cons a l ih =>
      cases m with
      | nil => simp
      | cons b m => simp [ih]

theorem boardVals_emptyGrid :
    boardVals (allSquares.map (fun p => (p, Cell.empty))) = [] := by decide

theorem boardGet_emptyGrid :
    ∀ q ∈ allSquares,
      boardGet (allSquares.map (fun p => (p, Cell.empty))) q = some Cell.empty := by decide

/-- Claim C6: a freshly constructed state (with the shuffle modelled as an
arbitrary permutation of the 64 squares) has white to move, two knights on
distinct empty squares, and exactly the ten point values
{-10,-5,-4,-3,-1,1,3,4,5,10}, one each, on cells disjoint from both
knights. -/
theorem spec_c6_initial_layout (difficulty : String) (perm : List Pos)
    (h : List.Perm perm allSquares) :
    (GameState.new difficulty perm).current_player = strWhite
    ∧ (GameState.new difficulty perm).white_knight ≠ (GameState.new difficulty perm).black_knight
    ∧ boardGet (GameState.new difficulty perm).board (GameState.new difficulty perm).white_knight
        = some Cell.empty
    ∧ boardGet (GameState.new difficulty perm).board (GameState.new difficulty perm).black_knight
        = some Cell.empty
    ∧ List.Perm (boardVals (GameState.new difficulty perm).board) special_values
    ∧ (boardVals (GameState.new difficulty perm).board).length = 10 := by
  have hlen : perm.length = 64 := by rw [h.length_eq]; rfl
  have hnd : perm.Nodup := h.nodup_iff.mpr (by decide)
  have hmemAll : ∀ q ∈ perm, q ∈ allSquares := fun q hq => h.mem_iff.mp hq
  obtain ⟨w, bk, rest, rfl⟩ : ∃ w bk rest, perm = w :: bk :: rest := by
    rcases perm with _ | ⟨w, _ | ⟨bk, rest⟩⟩
    · simp at hlen
    · simp at hlen
    · exact ⟨w, bk, rest, rfl⟩
  rw [List.nodup_cons] at hnd
  obtain ⟨hw, hnd2⟩ := hnd
  rw [List.nodup_cons] at hnd2
  obtain ⟨hbk, hrest⟩ := hnd2
  simp only [List.mem_cons, not_or] at hw
  have hrest_len : rest.length = 62 := by
    simp at hlen
    omega
  have hkeys : (rest.zip special_values).map Prod.fst = rest.take 10 := by
    rw [map_fst_zip_eq_take]
    rfl
  have hvals : (rest.zip special_values).map Prod.snd = special_values := by
    rw [map_snd_zip_eq_take, hrest_len]
    rfl
  have hkeysnd : ((rest.zip special_values).map Prod.fst).Nodup := by
    rw [hkeys]
    exact List.Nodup.sublist (List.take_sublist 10 rest) hrest
  have hkeymem : ∀ q ∈ rest.take 10, q ∈ allSquares := by
    intro q hq
    exact hmemAll q (List.mem_cons_of_mem _ (List.mem_cons_of_mem _ (List.take_subset 10 rest hq)))
  have hempty0 : ∀ q ∈ (rest.zip special_values).map Prod.fst,
      boardGet (allSquares.map (fun p => (p, Cell.empty))) q = some Cell.empty := by
    rw [hkeys]
    intro q hq
    exact boardGet_emptyGrid q (hkeymem q hq)
  have hpl := boardVals_foldl_place (rest.zip special_values)
    (allSquares.map (fun p => (p, Cell.empty))) hkeysnd hempty0
  rw [hvals, boardVals_emptyGrid, List.append_nil] at hpl
  refine ⟨rfl, ?_, ?_, ?_, ?_, ?_⟩
  · exact hw.1
  · show boardGet ((rest.zip special_values).foldl
        (fun b pv => setBoard b pv.1 (Cell.val pv.2))
        (allSquares.map (fun p => (p, Cell.empty)))) w = some Cell.empty
    rw [boardGet_foldl_place _ _ w (by
      rw [hkeys]
      intro hc
      exact hw.2 (List.take_subset 10 rest hc))]
    exact boardGet_emptyGrid w (hmemAll w (List.mem_cons_self _ _))
  · show boardGet ((rest.zip special_values).foldl
        (fun b pv => setBoard b pv.1 (Cell.val pv.2))
        (allSquares.map (fun p => (p, Cell.empty)))) bk = some Cell.empty
    rw [boardGet_foldl_place _ _ bk (by
      rw [hkeys]
      intro hc
      exact hbk (List.take_subset 10 rest hc))]
    exact boardGet_emptyGrid bk (hmemAll bk (List.mem_cons_of_mem _ (List.mem_cons_self _ _)))
  · exact hpl
  · exact hpl.length_eq.trans rfl

/-- Witness for C6 at the identity permutation of the 64 squares. -/
theorem spec_c6_initial_layout_witness :
    (GameState.new strBeginner allSquares).current_player = strWhite
    ∧ (GameState.new strBeginner allSquares).white_knight
        ≠ (GameState.new strBeginner allSquares).black_knight
    ∧ List.Perm (boardVals (GameState.new strBeginner allSquares).board) special_values := by
  have h := spec_c6_initial_layout strBeginner allSquares (List.Perm.refl allSquares)
  exact ⟨h.1, h.2.1, h.2.2.2.2.1⟩

/-- Decomposition of the non-terminal evaluator into its five terms. -/
theorem evaluate_decomp (s : GameState) (h : s.game_over = false) :
    evaluate_game_state s =
      scoreTerm s + mobilityTerm s + proximityTerm s + centerTerm s + noMoveTerm s := by
  unfold evaluate_game_state scoreTerm mobilityTerm proximityTerm centerTerm noMoveTerm
  rw [if_neg (by simp [h])]
  dsimp only
  split_ifs <;> simp_all <;> ring

/-- Counterexample to claim C3 as stated: in `stateWhiteStuck` the move
generator gives white zero legal moves (its only candidates are the
destroyed (2,1) and the opponent square (1,2)), yet the evaluator — whose
counts do not exclude the opponent square — applies no -400 no-move term
and returns -50, not the -450 the claim's formula yields. -/
theorem spec_c3_counterexample :
    stateWhiteStuck.get_valid_moves strWhite = []
    ∧ evaluate_game_state stateWhiteStuck = -50
    ∧ evaluate_game_state stateWhiteStuck ≠
        scoreTerm stateWhiteStuck + mobilityTermClaim stateWhiteStuck
          + proximityTerm stateWhiteStuck + centerTerm stateWhiteStuck
          + noMoveTermClaim stateWhiteStuck := by
  have h1 : MoveGenerator.count_valid_moves stateWhiteStuck.white_knight
      stateWhiteStuck.board none = 1 := by decide
  have h2 : MoveGenerator.count_valid_moves stateWhiteStuck.black_knight
      stateWhiteStuck.board none = 6 := by decide
  have h3 : get_valuable_squares stateWhiteStuck.board = [] := by decide
  have h4 : is_center_position stateWhiteStuck.white_knight = false := by decide
  have h5 : is_center_position stateWhiteStuck.black_knight = false := by decide
  have h6 : stateWhiteStuck.get_valid_moves strWhite = [] := by decide
  have h7 : (stateWhiteStuck.get_valid_moves strBlack).length = 5 := by decide
  have hev : evaluate_game_state stateWhiteStuck = -50 := by
    rw [evaluate_decomp stateWhiteStuck rfl]
    unfold scoreTerm mobilityTerm proximityTerm centerTerm noMoveTerm
    rw [h1, h2, h3, h4, h5]
    simp only [stateWhiteStuck]
    norm_num
  have hrhs : scoreTerm stateWhiteStuck + mobilityTermClaim stateWhiteStuck
      + proximityTerm stateWhiteStuck + centerTerm stateWhiteStuck
      + noMoveTermClaim stateWhiteStuck = -450 := by
    unfold scoreTerm mobilityTermClaim proximityTerm centerTerm noMoveTermClaim
    rw [h3, h6, h4, h5, h7]
    rw [if_neg (show ¬stateWhiteStuck.get_valid_moves strBlack = [] by decide)]
    simp only [stateWhiteStuck]
    norm_num
  refine ⟨h6, hev, ?_⟩
  rw [hev, hrhs]
  norm_num

/-- Claim C3, amended to what the code computes: the evaluator's mobility
term equals (white count - black count) × 10 and its no-move term subtracts
400 when white's count is zero and adds 400 when black's count is zero,
where each side's count is the move generator's count taken WITHOUT an
opponent argument — knight-offset destinations in bounds and not destroyed,
the opponent knight's square not excluded. -/
theorem spec_c3_mobility_terms (s : GameState) (h : s.game_over = false) :
    evaluate_game_state s =
      scoreTerm s + mobilityTerm s + proximityTerm s + centerTerm s + noMoveTerm s
    ∧ mobilityTerm s =
        ((MoveGenerator.count_valid_moves s.white_knight s.board none : ℚ)
          - (MoveGenerator.count_valid_moves s.black_knight s.board none : ℚ)) * 10
    ∧ noMoveTerm s =
        (if MoveGenerator.count_valid_moves s.white_knight s.board none = 0 then -400 else 0)
          + (if MoveGenerator.count_valid_moves s.black_knight s.board none = 0 then 400
             else 0) :=
  ⟨evaluate_decomp s h, rfl, rfl⟩

/-- Witness for the amended C3 at the non-terminal `stateWhiteStuck`. -/
theorem spec_c3_mobility_terms_witness :
    stateWhiteStuck.game_over = false
    ∧ evaluate_game_state stateWhiteStuck =
        scoreTerm stateWhiteStuck + mobilityTerm stateWhiteStuck
          + proximityTerm stateWhiteStuck + centerTerm stateWhiteStuck
          + noMoveTerm stateWhiteStuck :=
  ⟨rfl, (spec_c3_mobility_terms stateWhiteStuck rfl).1⟩

/-- Counterexample to claim C9 as stated: the two knights CAN both occupy
center squares at the same time (they are four distinct squares), in which
case both contribute and the net center effect is 0, not ±3.  In
`stateBothCenter` white is on (3,3) and black on (4,4); the whole
evaluation is 0. -/
theorem spec_c9_counterexample :
    is_center_position stateBothCenter.white_knight = true
    ∧ is_center_position stateBothCenter.black_knight = true
    ∧ centerTerm stateBothCenter = 0
    ∧ evaluate_game_state stateBothCenter = 0 := by
  have h1 : MoveGenerator.count_valid_moves stateBothCenter.white_knight
      stateBothCenter.board none = 8 := by decide
  have h2 : MoveGenerator.count_valid_moves stateBothCenter.black_knight
      stateBothCenter.board none = 8 := by decide
  have h3 : get_valuable_squares stateBothCenter.board = [] := by decide
  have h4 : is_center_position stateBothCenter.white_knight = true := by decide
  have h5 : is_center_position stateBothCenter.black_knight = true := by decide
  have hct : centerTerm stateBothCenter = 0 := by
    unfold centerTerm
    rw [h4, h5]
    norm_num
  refine ⟨h4, h5, hct, ?_⟩
  rw [evaluate_decomp stateBothCenter rfl]
  unfold scoreTerm mobilityTerm proximityTerm noMoveTerm
  rw [h1, h2, h3, hct]
  simp only [stateBothCenter]
  norm_num

/-- Claim C9, amended: the center term is +3 for white on a center square
and -3 for black on a center square, the two contributions are independent
(both can apply at once, on distinct center squares), and the net center
effect is one of -3, 0, +3; center squares are exactly
(3,3), (3,4), (4,3), (4,4). -/
theorem spec_c9_center_term (s : GameState) (h : s.game_over = false) :
    evaluate_game_state s =
      scoreTerm s + mobilityTerm s + proximityTerm s + centerTerm s + noMoveTerm s
    ∧ (is_center_position s.white_knight = true →
        is_center_position s.black_knight = false → centerTerm s = 3)
    ∧ (is_center_position s.white_knight = false →
        is_center_position s.black_knight = true → centerTerm s = -3)
    ∧ (is_center_position s.white_knight = is_center_position s.black_knight →
        centerTerm s = 0)
    ∧ (is_center_position s.white_knight = true ↔
        (s.white_knight = ((3 : Int), (3 : Int)) ∨ s.white_knight = (3, 4)
          ∨ s.white_knight = (4, 3) ∨ s.white_knight = (4, 4))) := by
  refine ⟨evaluate_decomp s h, ?_, ?_, ?_, ?_⟩
  · intro hw hb
    unfold centerTerm
    rw [hw, hb]
    norm_num
  · intro hw hb
    unfold centerTerm
    rw [hw, hb]
    norm_num
  · intro hwb
    unfold centerTerm
    rw [← hwb]
    exact sub_self _
  · simp [is_center_position, center_positions]

/-- Witness for the amended C9 at `stateBothCenter`, where both sides
contribute and the net center effect is 0. -/
theorem spec_c9_center_term_witness :
    stateBothCenter.game_over = false ∧ centerTerm stateBothCenter = 0 :=
  ⟨rfl, (spec_c9_center_term stateBothCenter rfl).2.2.2.1 (by decide)⟩

theorem XQ.ltB_ninf_fin (q : ℚ) : XQ.ltB XQ.ninf (XQ.fin q) = true := rfl

theorem XQ.ltB_fin_pinf (q : ℚ) : XQ.ltB (XQ.fin q) XQ.pinf = true := rfl

/-- The maximizing loop returns a finite value whenever its children do and
it either starts finite or has at least one move to process. -/
theorem maxLoopG_fin (recur : GameState → XQ → Nat → MMResult)
    (hrec : ∀ c a k, ∃ q, (recur c a k).1 = XQ.fin q)
    (s : GameState) (player : String) (β : XQ) :
    ∀ (moves : List Pos) (α me : XQ) (bm : Option Pos) (n : Nat),
      ((me = XQ.ninf ∧ moves ≠ []) ∨ (∃ q, me = XQ.fin q)) →
      ∃ q, (maxLoopG recur s player β moves α me bm n).1 = XQ.fin q := by
  intro moves
  induction moves with
  | nil =>
      intro α me bm n hinv
      rcases hinv with ⟨-, hne⟩ | ⟨q, hq⟩
      · exact absurd rfl hne
      · exact ⟨q, hq⟩
  | cons m rest ih =>
      intro α me bm n hinv
      simp only [maxLoopG]
      obtain ⟨qr, hqr⟩ := hrec ((s.copy.make_move player m).2) α n
      have hme' : ∃ q, (if XQ.ltB me ((recur ((s.copy.make_move player m).2)) α n).1
          then ((recur ((s.copy.make_move player m).2)) α n).1 else me) = XQ.fin q := by
        rcases hinv with ⟨hni, -⟩ | ⟨q, hq⟩
        · subst hni
          rw [hqr, XQ.ltB_ninf_fin]
          exact ⟨qr, by simp [hqr]⟩
        · subst hq
          by_cases hlt : XQ.ltB (XQ.fin q) ((recur ((s.copy.make_move player m).2)) α n).1 = true
          · rw [if_pos hlt]
            exact ⟨qr, hqr⟩
          · rw [if_neg hlt]
            exact ⟨q, rfl⟩
      split
      · exact hme'
      · exact ih _ _ _ _ (Or.inr hme')

/-- The minimizing loop returns a finite value under the symmetric
conditions. -/
theorem minLoopG_fin (recur : GameState → XQ → Nat → MMResult)
    (hrec : ∀ c b k, ∃ q, (recur c b k).1 = XQ.fin q)
    (s : GameState) (player : String) (α : XQ) :
    ∀ (moves : List Pos) (β me : XQ) (bm : Option Pos) (n : Nat),
      ((me = XQ.pinf ∧ moves ≠ []) ∨ (∃ q, me = XQ.fin q)) →
      ∃ q, (minLoopG recur s player α moves β me bm n).1 = XQ.fin q := by
  intro moves
  induction moves with
  | nil =>
      intro β me bm n hinv
      rcases hinv with ⟨-, hne⟩ | ⟨q, hq⟩
      · exact absurd rfl hne
      · exact ⟨q, hq⟩
  | cons m rest ih =>
      intro β me bm n hinv
      simp only [minLoopG]
      obtain ⟨qr, hqr⟩ := hrec ((s.copy.make_move player m).2) β n
      have hme' : ∃ q, (if XQ.ltB ((recur ((s.copy.make_move player m).2)) β n).1 me
          then ((recur ((s.copy.make_move player m).2)) β n).1 else me) = XQ.fin q := by
        rcases hinv with ⟨hni, -⟩ | ⟨q, hq⟩
        · subst hni
          rw [hqr, XQ.ltB_fin_pinf]
          exact ⟨qr, by simp [hqr]⟩
        · subst hq
          by_cases hlt : XQ.ltB ((recur ((s.copy.make_move player m).2)) β n).1 (XQ.fin q) = true
          · rw [if_pos hlt]
            exact ⟨qr, hqr⟩
          · rw [if_neg hlt]
            exact ⟨q, rfl⟩
      split
      · exact hme'
      · exact ih _ _ _ _ (Or.inr hme')

/-- The search value is always a finite rational. -/
theorem minimax_fin : ∀ (depth : Nat) (s : GameState) (α β : XQ)
    (is_maximizing : Bool) (n : Nat),
    ∃ q, (minimax_alpha_beta depth s α β is_maximizing n).1 = XQ.fin q := by
  intro depth
  induction depth with
  | zero =>
      intro s α β im n
      exact ⟨evaluate_game_state s, rfl⟩
  | succ d ih =>
      intro s α β im n
      simp only [minimax_alpha_beta]
      by_cases hgo : s.game_over = true
      · simp [hgo]
      · simp only [hgo, if_false, Bool.false_eq_true]
        by_cases hmv : s.get_valid_moves (if im then strWhite else strBlack) = []
        · simp [hmv]
        · simp only [hmv, if_neg, if_false]
          cases im with
          | true =>
              simp only [if_true]
              exact maxLoopG_fin _ (fun c a k => ih c a β false k) s strWhite β _ α
                XQ.ninf none (n + 1) (Or.inl ⟨rfl, by simpa using hmv⟩)
          | false =>
              exact minLoopG_fin _ (fun c b k => ih c α b true k) s strBlack α _ β
                XQ.pinf none (n + 1) (Or.inl ⟨rfl, by simpa using hmv⟩)

/-- The maximizing loop threads its node counter additively: its value and
move do not depend on the incoming counter, which is only shifted. -/
theorem maxLoopG_shift (recur : GameState → XQ → Nat → MMResult)
    (hrec : ∀ c a n k, recur c a (n + k) =
      ((recur c a k).1, (recur c a k).2.1, n + (recur c a k).2.2))
    (s : GameState) (player : String) (β : XQ) :
    ∀ (moves : List Pos) (α me : XQ) (bm : Option Pos) (n k : Nat),
      maxLoopG recur s player β moves α me bm (n + k) =
        ((maxLoopG recur s player β moves α me bm k).1,
         (maxLoopG recur s player β moves α me bm k).2.1,
         n + (maxLoopG recur s player β moves α me bm k).2.2) := by
  intro moves
  induction moves with
  | nil => intro α me bm n k; rfl
  | cons m rest ih =>
      intro α me bm n k
      simp only [maxLoopG]
      rw [hrec ((s.copy.make_move player m).2) α n k]
      dsimp only
      by_cases hcut : XQ.leB β
          (XQ.maxP α ((recur ((s.copy.make_move player m).2) α k).1)) = true
      · rw [if_pos hcut, if_pos hcut]
      · rw [if_neg hcut, if_neg hcut]
        exact ih _ _ _ n _

/-- The minimizing loop threads its node counter additively. -/
theorem minLoopG_shift (recur : GameState → XQ → Nat → MMResult)
    (hrec : ∀ c b n k, recur c b (n + k) =
      ((recur c b k).1, (recur c b k).2.1, n + (recur c b k).2.2))
    (s : GameState) (player : String) (α : XQ) :
    ∀ (moves : List Pos) (β me : XQ) (bm : Option Pos) (n k : Nat),
      minLoopG recur s player α moves β me bm (n + k) =
        ((minLoopG recur s player α moves β me bm k).1,
         (minLoopG recur s player α moves β me bm k).2.1,
         n + (minLoopG recur s player α moves β me bm k).2.2) := by
  intro moves
  induction moves with
  | nil => intro β me bm n k; rfl
  | cons m rest ih =>
      intro β me bm n k
      simp only [minLoopG]
      rw [hrec ((s.copy.make_move player m).2) β n k]
      dsimp only
      by_cases hcut : XQ.leB
          (XQ.minP β ((recur ((s.copy.make_move player m).2) β k).1)) α = true
      · rw [if_pos hcut, if_pos hcut]
      · rw [if_neg hcut, if_neg hcut]
        exact ih _ _ _ n _

/-- The search threads its node counter additively, and its value and move
do not depend on the incoming counter. -/
theorem minimax_shift : ∀ (depth : Nat) (s : GameState) (α β : XQ)
    (is_maximizing : Bool) (n k : Nat),
    minimax_alpha_beta depth s α β is_maximizing (n + k) =
      ((minimax_alpha_beta depth s α β is_maximizing k).1,
       (minimax_alpha_beta depth s α β is_maximizing k).2.1,
       n + (minimax_alpha_beta depth s α β is_maximizing k).2.2) := by
  intro depth
  induction depth with
  | zero =>
      intro s α β im n k
      simp [minimax_alpha_beta, Nat.add_assoc]
  | succ d ih =>
      intro s α β im n k
      simp only [minimax_alpha_beta]
      by_cases hgo : s.game_over = true
      · simp [hgo, Nat.add_assoc]
      · simp only [hgo, if_false, Bool.false_eq_true]
        by_cases hmv : s.get_valid_moves (if im then strWhite else strBlack) = []
        · simp [hmv, Nat.add_assoc]
        · simp only [hmv, if_neg, if_false]
          cases im with
          | true =>
              simp only [if_true]
              rw [show (n + k) + 1 = n + (k + 1) from Nat.add_assoc n k 1]
              exact maxLoopG_shift (fun c a k' => minimax_alpha_beta d c a β false k')
                (fun c a n' k' => ih c a β false n' k') s strWhite β
                (s.get_valid_moves strWhite) α XQ.ninf none n (k + 1)
          | false =>
              rw [show (n + k) + 1 = n + (k + 1) from Nat.add_assoc n k 1]
              exact minLoopG_shift (fun c b k' => minimax_alpha_beta d c α b true k')
                (fun c b n' k' => ih c α b true n' k') s strBlack α
                (s.get_valid_moves strBlack) β XQ.pinf none n (k + 1)

/-- The maximizing loop never decreases the node counter. -/
theorem maxLoopG_lower (recur : GameState → XQ → Nat → MMResult)
    (hrec : ∀ c a k, k ≤ (recur c a k).2.2)
    (s : GameState) (player : String) (β : XQ) :
    ∀ (moves : List Pos) (α me : XQ) (bm : Option Pos) (n : Nat),
      n ≤ (maxLoopG recur s player β moves α me bm n).2.2 := by
  intro moves
  induction moves with
  | nil => intro α me bm n; exact Nat.le_refl n
  | cons m rest ih =>
      intro α me bm n
      simp only [maxLoopG]
      split
      · exact hrec _ _ _
      · exact Nat.le_trans (hrec _ _ _) (ih _ _ _ _)

/-- The minimizing loop never decreases the node counter. -/
theorem minLoopG_lower (recur : GameState → XQ → Nat → MMResult)
    (hrec : ∀ c b k, k ≤ (recur c b k).2.2)
    (s : GameState) (player : String) (α : XQ) :
    ∀ (moves : List Pos) (β me : XQ) (bm : Option Pos) (n : Nat),
      n ≤ (minLoopG recur s player α moves β me bm n).2.2 := by
  intro moves
  induction moves with
  | nil => intro β me bm n; exact Nat.le_refl n
  | cons m rest ih =>
      intro β me bm n
      simp only [minLoopG]
      split
      · exact hrec _ _ _
      · exact Nat.le_trans (hrec _ _ _) (ih _ _ _ _)

/-- Every call increments the node counter at least once. -/
theorem minimax_lower : ∀ (depth : Nat) (s : GameState) (α β : XQ)
    (is_maximizing : Bool) (n : Nat),
    n + 1 ≤ (minimax_alpha_beta depth s α β is_maximizing n).2.2 := by
  intro depth
  induction depth with
  | zero => intro s α β im n; exact Nat.le_refl (n + 1)
  | succ d ih =>
      intro s α β im n
      simp only [minimax_alpha_beta]
      by_cases hgo : s.game_over = true
      · simp [hgo]
      · simp only [hgo, if_false, Bool.false_eq_true]
        by_cases hmv : s.get_valid_moves (if im then strWhite else strBlack) = []
        · simp [hmv]
        · simp only [hmv, if_neg, if_false]
          cases im with
          | true =>
              simp only [if_true]
              exact maxLoopG_lower _
                (fun c a k => Nat.le_trans (Nat.le_succ k) (ih c a β false k))
                s strWhite β (s.get_valid_moves strWhite) α XQ.ninf none (n + 1)
          | false =>
              exact minLoopG_lower _
                (fun c b k => Nat.le_trans (Nat.le_succ k) (ih c α b true k))
                s strBlack α (s.get_valid_moves strBlack) β XQ.pinf none (n + 1)

/-- The source maximizing loop (best value seeded with `-inf`) agrees with
the claim-side loop (best value/move absent until the first child), for any
recursion returning finite values. -/
theorem maxLoopG_eq_claim (recur recurC : GameState → XQ → Nat → MMResult)
    (hrec : ∀ c a k, recur c a k = recurC c a k)
    (hfin : ∀ c a k, ∃ q, (recur c a k).1 = XQ.fin q)
    (s : GameState) (player : String) (β : XQ) :
    ∀ (moves : List Pos) (α me : XQ) (bm : Option Pos)
      (best : Option (XQ × Pos)) (n : Nat),
      ((me = XQ.ninf ∧ bm = none ∧ best = none) ∨
        (∃ q mv, me = XQ.fin q ∧ bm = some mv ∧ best = some (XQ.fin q, mv))) →
      maxLoopG recur s player β moves α me bm n =
        claimMaxLoop recurC s player β moves α best n := by
  intro moves
  induction moves with
  | nil =>
      intro α me bm best n hinv
      rcases hinv with ⟨h1, h2, h3⟩ | ⟨q, mv, h1, h2, h3⟩ <;>
        subst h1 <;> subst h2 <;> subst h3 <;> rfl
  | cons m rest ih =>
      intro α me bm best n hinv
      simp only [maxLoopG, claimMaxLoop]
      rw [← hrec ((s.copy.make_move player m).2) α n]
      obtain ⟨qr, hqr⟩ := hfin ((s.copy.make_move player m).2) α n
      rw [hqr]
      rcases hinv with ⟨h1, h2, h3⟩ | ⟨q, mv, h1, h2, h3⟩
      · subst h1
        subst h2
        subst h3
        rw [XQ.ltB_ninf_fin]
        dsimp only
        by_cases hcut : XQ.leB β (XQ.maxP α (XQ.fin qr)) = true
        · rw [if_pos hcut, if_pos hcut]
          rfl
        · rw [if_neg hcut, if_neg hcut]
          exact ih _ _ _ _ _ (Or.inr ⟨qr, m, rfl, rfl, rfl⟩)
      · subst h1
        subst h2
        subst h3
        dsimp only
        by_cases hlt : XQ.ltB (XQ.fin q) (XQ.fin qr) = true
        · rw [if_pos hlt, if_pos hlt, if_pos hlt]
          by_cases hcut : XQ.leB β (XQ.maxP α (XQ.fin qr)) = true
          · rw [if_pos hcut, if_pos hcut]
          · rw [if_neg hcut, if_neg hcut]
            exact ih _ _ _ _ _ (Or.inr ⟨qr, m, rfl, rfl, rfl⟩)
        · rw [if_neg hlt, if_neg hlt, if_neg hlt]
          by_cases hcut : XQ.leB β (XQ.maxP α (XQ.fin qr)) = true
          · rw [if_pos hcut, if_pos hcut]
          · rw [if_neg hcut, if_neg hcut]
            exact ih _ _ _ _ _ (Or.inr ⟨q, mv, rfl, rfl, rfl⟩)

/-- The source minimizing loop (best value seeded with `+inf`) agrees with
the claim-side loop, for any recursion returning finite values. -/
theorem minLoopG_eq_claim (recur recurC : GameState → XQ → Nat → MMResult)
    (hrec : ∀ c b k, recur c b k = recurC c b k)
    (hfin : ∀ c b k, ∃ q, (recur c b k).1 = XQ.fin q)
    (s : GameState) (player : String) (α : XQ) :
    ∀ (moves : List Pos) (β me : XQ) (bm : Option Pos)
      (best : Option (XQ × Pos)) (n : Nat),
      ((me = XQ.pinf ∧ bm = none ∧ best = none) ∨
        (∃ q mv, me = XQ.fin q ∧ bm = some mv ∧ best = some (XQ.fin q, mv))) →
      minLoopG recur s player α moves β me bm n =
        claimMinLoop recurC s player α moves β best n := by
  intro moves
  induction moves with
  | nil =>
      intro β me bm best n hinv
      rcases hinv with ⟨h1, h2, h3⟩ | ⟨q, mv, h1, h2, h3⟩ <;>
        subst h1 <;> subst h2 <;> subst h3 <;> rfl
  | cons m rest ih =>
      intro β me bm best n hinv
      simp only [minLoopG, claimMinLoop]
      rw [← hrec ((s.copy.make_move player m).2) β n]
      obtain ⟨qr, hqr⟩ := hfin ((s.copy.make_move player m).2) β n
      rw [hqr]
      rcases hinv with ⟨h1, h2, h3⟩ | ⟨q, mv, h1, h2, h3⟩
      · subst h1
        subst h2
        subst h3
        rw [XQ.ltB_fin_pinf]
        dsimp only
        by_cases hcut : XQ.leB (XQ.minP β (XQ.fin qr)) α = true
        · rw [if_pos hcut, if_pos hcut]
          rfl
        · rw [if_neg hcut, if_neg hcut]
          exact ih _ _ _ _ _ (Or.inr ⟨qr, m, rfl, rfl, rfl⟩)
      · subst h1
        subst h2
        subst h3
        dsimp only
        by_cases hlt : XQ.ltB (XQ.fin qr) (XQ.fin q) = true
        · rw [if_pos hlt, if_pos hlt, if_pos hlt]
          by_cases hcut : XQ.leB (XQ.minP β (XQ.fin qr)) α = true
          · rw [if_pos hcut, if_pos hcut]
          · rw [if_neg hcut, if_neg hcut]
            exact ih _ _ _ _ _ (Or.inr ⟨qr, m, rfl, rfl, rfl⟩)
        · rw [if_neg hlt, if_neg hlt, if_neg hlt]
          by_cases hcut : XQ.leB (XQ.minP β (XQ.fin qr)) α = true
          · rw [if_pos hcut, if_pos hcut]
          · rw [if_neg hcut, if_neg hcut]
            exact ih _ _ _ _ _ (Or.inr ⟨q, mv, rfl, rfl, rfl⟩)

/-- The transcription of `minimax_alpha_beta` agrees with the claim-side
transcription of C1 on every input. -/
theorem minimax_eq_claim : ∀ (depth : Nat) (s : GameState) (α β : XQ)
    (is_maximizing : Bool) (n : Nat),
    minimax_alpha_beta depth s α β is_maximizing n =
      minimaxClaim depth s α β is_maximizing n := by
  intro depth
  induction depth with
  | zero => intro s α β im n; rfl
  | succ d ih =>
      intro s α β im n
      simp only [minimax_alpha_beta, minimaxClaim]
      by_cases hgo : s.game_over = true
      · simp [hgo]
      · by_cases hmv : s.get_valid_moves (if im then strWhite else strBlack) = []
        · simp [hgo, hmv]
        · simp only [hgo, hmv, if_false, Bool.false_eq_true, or_self, or_false,
            false_or, if_neg]
          cases im with
          | true =>
              simp only [if_true]
              exact maxLoopG_eq_claim _ _ (fun c a k => ih c a β false k)
                (fun c a k => minimax_fin d c a β false k) s strWhite β
                (s.get_valid_moves strWhite) α XQ.ninf none none (n + 1)
                (Or.inl ⟨rfl, rfl, rfl⟩)
          | false =>
              exact minLoopG_eq_claim _ _ (fun c b k => ih c α b true k)
                (fun c b k => minimax_fin d c α b true k) s strBlack α
                (s.get_valid_moves strBlack) β XQ.pinf none none (n + 1)
                (Or.inl ⟨rfl, rfl, rfl⟩)

/-- Claim C1: `minimax_alpha_beta` behaves exactly as described.  First
conjunct: it agrees with `minimaxClaim`, the direct transcription of the
claim (leaf conditions — depth 0, terminal flag, or no legal moves for the
side to move — return the heuristic score unchanged with no move and a
counter increment; otherwise the legal moves are iterated in move-generator
order over cloned states, a maximizing node keeps the strictly greater
value with first-move tie-break, alpha is set to max(alpha, child) and the
remaining siblings are skipped once beta <= alpha, minimizing symmetric).
Second conjunct: the node counter is threaded additively through the call
(the value and move are counter-independent).  Third: every call increments
the counter at least once.  Fourth: the leaf equation explicitly. -/
theorem spec_c1_minimax_alpha_beta (depth : Nat) (s : GameState) (α β : XQ)
    (is_maximizing : Bool) (nodes : Nat) :
    minimax_alpha_beta depth s α β is_maximizing nodes
        = minimaxClaim depth s α β is_maximizing nodes
    ∧ minimax_alpha_beta depth s α β is_maximizing nodes =
        ((minimax_alpha_beta depth s α β is_maximizing 0).1,
         (minimax_alpha_beta depth s α β is_maximizing 0).2.1,
         nodes + (minimax_alpha_beta depth s α β is_maximizing 0).2.2)
    ∧ nodes + 1 ≤ (minimax_alpha_beta depth s α β is_maximizing nodes).2.2
    ∧ ((depth = 0 ∨ s.game_over = true ∨
          s.get_valid_moves (if is_maximizing then strWhite else strBlack) = []) →
        minimax_alpha_beta depth s α β is_maximizing nodes =
          (XQ.fin (evaluate_game_state s), none, nodes + 1)) := by
  refine ⟨minimax_eq_claim depth s α β is_maximizing nodes, ?_,
    minimax_lower depth s α β is_maximizing nodes, ?_⟩
  · have h := minimax_shift depth s α β is_maximizing nodes 0
    simpa using h
  · intro hleaf
    cases depth with
    | zero => rfl
    | succ d =>
        rcases hleaf with h0 | hgo | hmv
        · exact absurd h0 (Nat.succ_ne_zero d)
        · simp [minimax_alpha_beta, hgo]
        · by_cases hgo : s.game_over = true
          · simp [minimax_alpha_beta, hgo]
          · simp [minimax_alpha_beta, hgo, hmv]

/-- Witness for C1's leaf equation at depth 0 on a concrete state. -/
theorem spec_c1_minimax_alpha_beta_witness :
    ((0 : Nat) = 0 ∨ stateOpponentAdjacent.game_over = true ∨
      stateOpponentAdjacent.get_valid_moves (if true then strWhite else strBlack) = [])
    ∧ minimax_alpha_beta 0 stateOpponentAdjacent XQ.ninf XQ.pinf true 0 =
        (XQ.fin (evaluate_game_state stateOpponentAdjacent), none, 1) :=
  ⟨Or.inl rfl, (spec_c1_minimax_alpha_beta 0 stateOpponentAdjacent XQ.ninf XQ.pinf
    true 0).2.2.2 (Or.inl rfl)⟩
